import Mathlib

/-!
Verification of the paged prefetching cache of the iview repository
(`cache.go`), as a shallow embedding in Lean 4.

Go integers are embedded as `Int` with Go's truncated division (`Int.tdiv`,
`Int.tmod`); Go slices become `List`; a `chan int` used as a notification
slot becomes an abstract channel identifier (`ChanId := Nat`) together with
an explicit list of the values sent on channels; a Go panic becomes `none`
in an `Option`-valued result where the source can panic.
-/

/-- Abstract identifier of a Go `chan int` notification slot. -/
abbrev ChanId := Nat

/-- Go integer division: `a / b` on Go `int` truncates toward zero. -/
def goDiv (a b : Int) : Int := Int.tdiv a b

/-- Go integer remainder: `a % b` on Go `int` (sign of the dividend). -/
def goMod (a b : Int) : Int := Int.tmod a b

/-- Embedding of `intCeil` (unnamed source file, part_000): integer ceiling
of `a / b` computed as `n := a / b; if a % b > 0 { n++ }`. -/
def intCeil (a b : Int) : Int :=
  let n := goDiv a b
  if goMod a b > 0 then n + 1 else n

/-! ## Resident-page set: `pageCache` (cache.go lines 213-248) -/

/-- Embedding of `pageCache`: cache storage for pages, an ordered list of
page numbers. -/
structure pageCache where
  pages : List Int
deriving Repr, DecidableEq

/-- Embedding of `pageCache.contains`: `slices.Contains(pc.pages, page)`. -/
def pageCache.contains (pc : pageCache) (page : Int) : Bool :=
  pc.pages.contains page

/-- The constant `cacheSize = 5` local to `pageCache.add`. -/
def cacheSize : Nat := 5

/-- Embedding of `pageCache.add` (cache.go lines 226-248). Returns the new
cache state together with `(evicted page, evicted?)`.

The at-capacity branch appends the page, sorts ascending (`slices.Sort`),
and takes `i := slices.Index(pc.pages, page)`. `slices.Sort` is embedded as
`List.insertionSort (· ≤ ·)`: page numbers in the set are pairwise distinct,
so every ascending sort produces the same list. If `i >= cacheSize-i-1`
(Go `int` arithmetic, hence the casts to `Int`) it reads `evicted :=
pc.pages[0]`, shifts left with `copy(pc.pages, pc.pages[1:])` and truncates
to `cacheSize`, which leaves `(sorted.drop 1).take cacheSize`. Otherwise it
reads `evicted := pc.pages[cacheSize-1]` and truncates, leaving
`sorted.take cacheSize`. -/
def pageCache.add (pc : pageCache) (page : Int) : pageCache × Int × Bool :=
  if pc.contains page then (pc, 0, false)
  else if pc.pages.length < cacheSize then (⟨pc.pages ++ [page]⟩, 0, false)
  else
    let sorted := (pc.pages ++ [page]).insertionSort (· ≤ ·)
    let i := sorted.indexOf page
    if (i : Int) ≥ (cacheSize : Int) - (i : Int) - 1 then
      (⟨(sorted.drop 1).take cacheSize⟩, sorted.getD 0 0, true)
    else
      (⟨sorted.take cacheSize⟩, sorted.getD (cacheSize - 1) 0, true)

/-- Operations a client of the resident-page set can perform; `contains`
does not mutate the set, `add` replaces it by the returned state. -/
inductive CacheOp
  | containsOp (page : Int)
  | addOp (page : Int)

/-- Run a sequence of `pageCache` operations starting from the empty set,
keeping only the resulting state (`contains` is read-only). -/
def pageCache.runOps (ops : List CacheOp) : pageCache :=
  ops.foldl
    (fun pc op =>
      match op with
      | .containsOp _ => pc
      | .addOp p => (pc.add p).1)
    ⟨[]⟩

/-! ## In-flight request tracker: `loader` (cache.go lines 99-105, 250-303) -/

/-- Embedding of `pageRequest`: a page number plus an optional notification
channel (`done`, nil when the request is a prefetch hint). -/
structure pageRequest where
  page : Int
  done : Option ChanId
deriving Repr, DecidableEq

/-- Embedding of `inProgress`: an active page request, the page number plus
the channels to notify after loading. -/
structure inProgress where
  p : Int
  reply : List ChanId
deriving Repr, DecidableEq

instance : Inhabited inProgress := ⟨⟨0, []⟩⟩

/-- Embedding of `loader`: the tracker of active page requests. -/
structure loader where
  loading : List inProgress
deriving Repr, DecidableEq

/-- Embedding of `loader.isActive`: `slices.ContainsFunc(l.loading, ...)`. -/
def loader.isActive (l : loader) (page : Int) : Bool :=
  l.loading.any (fun e => e.p == page)

/-- Embedding of the local `appendNotNil` closure in `loader.track`:
append the channel to the list only when it is non-nil. -/
def appendNotNil (s : List ChanId) (c : Option ChanId) : List ChanId :=
  match c with
  | some ch => s ++ [ch]
  | none => s

/-- Recursion realizing the `slices.IndexFunc` search plus in-place update
of `loader.track`: the first entry whose page equals the request's page has
the request's slot appended to its reply list; when no entry matches, a
fresh entry is appended at the end of the list. -/
def trackAux : List inProgress → pageRequest → List inProgress × Bool
  | [], req => ([⟨req.page, appendNotNil [] req.done⟩], true)
  | e :: rest, req =>
    if e.p == req.page then
      (⟨e.p, appendNotNil e.reply req.done⟩ :: rest, false)
    else
      let pr := trackAux rest req
      (e :: pr.1, pr.2)

/-- Embedding of `loader.track` (cache.go lines 270-289): returns the new
tracker state and whether this request is for a new page. -/
def loader.track (l : loader) (req : pageRequest) : loader × Bool :=
  let r := trackAux l.loading req
  (⟨r.1⟩, r.2)

/-- Embedding of `loader.done` (cache.go lines 292-303): find the first
entry for the page with `slices.IndexFunc`; when present (`i >= 0`), send
the page number on every reply channel of that entry and remove the entry
by moving the last entry into its slot and truncating
(`l.loading[i] = l.loading[len-1]; l.loading = l.loading[0 : len-1]`).
Returns the new tracker and the sends performed, as (channel, value) pairs
in order. When no entry exists (`i = -1`) nothing happens. -/
def loader.done (l : loader) (page : Int) : loader × List (ChanId × Int) :=
  match l.loading.findIdx? (fun e => e.p == page) with
  | none => (l, [])
  | some i =>
    (⟨(l.loading.set i (l.loading.getD (l.loading.length - 1) default)).take
        (l.loading.length - 1)⟩,
     (l.loading.getD i default).reply.map (fun c => (c, page)))

/-- The page numbers of the tracker's entries, in order. -/
def loaderPages (l : loader) : List Int := l.loading.map (fun e => e.p)

/-- Operations the coordinator performs on the tracker (`isActive` is
read-only and omitted). -/
inductive LoaderOp
  | trackOp (req : pageRequest)
  | doneOp (page : Int)

/-- Run a sequence of tracker operations starting from the empty tracker,
keeping only the resulting state. -/
def loader.runOps (ops : List LoaderOp) : loader :=
  ops.foldl
    (fun l op =>
      match op with
      | .trackOp req => (l.track req).1
      | .doneOp p => (l.done p).1)
    ⟨[]⟩

/-! ## Coordinator (the goroutine of `startPreFetcher`, cache.go 127-178) -/

/-- The state owned exclusively by the prefetcher goroutine. -/
structure coordState where
  cache : pageCache
  inflight : loader
deriving Repr, DecidableEq

/-- Observable effects of handling one `pageRequest` in the prefetcher
loop: the successor state, the notifications sent on request slots, and the
page for which a load worker goroutine was spawned (if any). -/
structure reqEffects where
  state : coordState
  sends : List (ChanId × Int)
  spawned : Option Int
deriving Repr, DecidableEq

/-- Embedding of the `case req, ok := <-in` branch body of the prefetcher
loop (cache.go lines 141-156): if the page is resident, notify the
request's slot when present and do nothing else; otherwise consult
`inflight.track` and spawn a load worker exactly when it reports a new
page. -/
def handleRequest (st : coordState) (req : pageRequest) : reqEffects :=
  if st.cache.contains req.page then
    ⟨st,
     match req.done with
     | some c => [(c, req.page)]
     | none => [],
     none⟩
  else
    let tr := st.inflight.track req
    if tr.2 then ⟨⟨st.cache, tr.1⟩, [], some req.page⟩
    else ⟨⟨st.cache, tr.1⟩, [], none⟩

/-- Observable effects of handling one `page-ready` completion: the
successor state, the waiter notifications sent by `done`, and the page for
which an unload worker goroutine was spawned (if any). -/
structure readyEffects where
  state : coordState
  sends : List (ChanId × Int)
  unloadSpawned : Option Int
deriving Repr, DecidableEq

/-- Embedding of the `case page := <-ready` branch body of the prefetcher
loop (cache.go lines 157-175): `none` models the
`panic("cache: ready page ... not inprogress")` taken when the page has no
in-flight entry; otherwise the page is added to the resident set, an unload
worker is spawned when a page was evicted, and `done` notifies the
waiters. -/
def handleReady (st : coordState) (page : Int) : Option readyEffects :=
  if !st.inflight.isActive page then none
  else
    let a := st.cache.add page
    let d := st.inflight.done page
    some ⟨⟨a.1, d.1⟩, d.2, if a.2.2 then some a.2.1 else none⟩

/-- Embedding of the `case req, ok := <-in` receive itself: `none` stands
for a receive on the closed channel (`ok = false`), upon which the loop
returns (result `none`); otherwise the request is handled. -/
def fetchLoopRecv (st : coordState) (m : Option pageRequest) :
    Option reqEffects :=
  match m with
  | none => none
  | some req => some (handleRequest st req)

/-! ## Facade: `CachedSlicePaged` (cache.go lines 44-123) -/

variable {E : Type}

/-- Embedding of the `CachedSlicePaged` facade state; `fetchOpen` models
`c.fetchC != nil`. -/
structure CachedSlicePaged (E : Type) where
  name : String
  items : List E
  pageSize : Int
  fetchOpen : Bool
deriving Repr

/-- Embedding of `CachedSlicePaged.Len`. -/
def CachedSlicePaged.Len (c : CachedSlicePaged E) : Int := c.items.length

/-- Embedding of `CachedSlicePaged.numPages`:
`intCeil(len(c.items), c.pageSize)`. -/
def CachedSlicePaged.numPages (c : CachedSlicePaged E) : Int :=
  intCeil c.items.length c.pageSize

/-- Trace of one call to `CachedSlicePaged.At`: the fire-and-forget page
requests actually sent by `fetchPagesLater` (in-range pages only), the
blocking page request sent by `fetchPageNow` (if in range), and the return
value, where `none` models a Go panic (out-of-range slice index) and
`some (v, ok)` a normal return with `v = none` standing for the zero value
`z`. -/
structure AtTrace (E : Type) where
  laterReqs : List Int
  nowReq : Option Int
  result : Option (Option E × Bool)
deriving Repr, DecidableEq

/-- Embedding of `CachedSlicePaged.At` (cache.go lines 70-79) together
with the guards of `fetchPagesLater` (lines 117-123) and `fetchPageNow`
(lines 108-114). Only `pos >= len(c.items)` short-circuits; otherwise
`page := pos / c.pageSize` (Go division truncates toward zero), the pages
`page-1` and `page+1` are requested without blocking and `page` with
blocking when inside `[0, numPages)`, and `c.items[pos]` is returned —
which for `pos < 0` is an out-of-range panic, modelled as result `none`. -/
def CachedSlicePaged.At (c : CachedSlicePaged E) (pos : Int) : AtTrace E :=
  if pos ≥ (c.items.length : Int) then ⟨[], none, some (none, false)⟩
  else
    let page := goDiv pos c.pageSize
    let later := [page - 1, page + 1].filter
      (fun p => decide (0 ≤ p) && decide (p < c.numPages))
    let nowR := if 0 ≤ page ∧ page < c.numPages then some page else none
    if 0 ≤ pos then ⟨later, nowR, some (c.items[pos.toNat]?, true)⟩
    else ⟨later, nowR, none⟩

/-- Embedding of `CachedSlicePaged.stopPreFetcher` (cache.go lines
181-186): close `fetchC` when it is non-nil and set it to nil. Returns the
new facade state and whether `close` was called. -/
def CachedSlicePaged.stopPreFetcher (c : CachedSlicePaged E) :
    CachedSlicePaged E × Bool :=
  (⟨c.name, c.items, c.pageSize, false⟩, c.fetchOpen)

/-- Embedding of `CachedSlicePaged.Free` (cache.go lines 85-92): stop the
prefetcher, then spawn one `Unload` goroutine for every item index
`0, ..., len(c.items)-1`. Returns the facade state, whether the request
channel was closed, and the list of item indices that receive an `Unload`
call. -/
def CachedSlicePaged.Free (c : CachedSlicePaged E) :
    CachedSlicePaged E × Bool × List Nat :=
  ((c.stopPreFetcher).1, (c.stopPreFetcher).2, List.range c.items.length)

/-! ## Range iterator: `Get` (cache.go lines 33-42) -/

/-- Fuel-indexed body of the loop in `Get`; the fuel is `upTo - frm` so that
fuel remains exactly when `frm < to`. `atf i = some e` models
`c.At(i) = (e, true)` and `atf i = none` models `ok = false`; `yield` is
the consumer's continuation. Returns the items passed to `yield` and the
indices passed to `At`, both in order. -/
def GetRunAux (atf : Int → Option E) (yield : E → Bool) :
    Nat → Int → List E × List Int
  | 0, _ => ([], [])
  | fuel + 1, frm =>
    match atf frm with
    | none => ([], [frm])
    | some e =>
      if yield e then
        let r := GetRunAux atf yield fuel (frm + 1)
        (e :: r.1, frm :: r.2)
      else ([e], [frm])

/-- Embedding of `Get` (cache.go lines 33-42) over an abstract
`CachedSlice`: run the loop `for ; from < to; from++` of the source (the
bounds are named `frm`, `upTo` here since both are Lean keywords), calling
`At`,
returns on not-found, and otherwise yields until the consumer stops. -/
def GetRun (atf : Int → Option E) (yield : E → Bool) (frm upTo : Int) :
    List E × List Int :=
  GetRunAux atf yield (upTo - frm).toNat frm

/-! ## Lemmas about the resident-page set -/

lemma pageCache.length_add_le (pc : pageCache) (p : Int)
    (h : pc.pages.length ≤ cacheSize) :
    ((pc.add p).1).pages.length ≤ cacheSize := by
  unfold pageCache.add
  by_cases hc : pc.contains p
  · simp [hc, h]
  · by_cases hl : pc.pages.length < cacheSize
    · simp only [hc, hl, if_true, if_false, Bool.false_eq_true]
      simpa using hl
    · simp only [hc, hl, if_false, Bool.false_eq_true]
      by_cases hi : ((((pc.pages ++ [p]).insertionSort (· ≤ ·)).indexOf p : Int) ≥
          (cacheSize : Int) - (((pc.pages ++ [p]).insertionSort (· ≤ ·)).indexOf p : Int) - 1)
      · simp only [hi, if_true]
        exact List.length_take_le _ _
      · simp only [hi, if_false]
        exact List.length_take_le _ _

lemma pageCache.nodup_add (pc : pageCache) (p : Int)
    (h : pc.pages.Nodup) : ((pc.add p).1).pages.Nodup := by
  unfold pageCache.add
  by_cases hc : pc.contains p
  · simpa [hc] using h
  · have hnotmem : p ∉ pc.pages := by
      intro hmem
      exact hc (by simpa [pageCache.contains] using hmem)
    have happ : (pc.pages ++ [p]).Nodup := by
      rw [← List.concat_eq_append]
      exact h.concat hnotmem
    have hsortnd : ((pc.pages ++ [p]).insertionSort (· ≤ ·)).Nodup :=
      (List.perm_insertionSort (· ≤ ·) (pc.pages ++ [p])).nodup_iff.mpr happ
    by_cases hl : pc.pages.length < cacheSize
    · simp only [hc, hl, if_true, if_false, Bool.false_eq_true]
      exact happ
    · simp only [hc, hl, if_false, Bool.false_eq_true]
      by_cases hi : ((((pc.pages ++ [p]).insertionSort (· ≤ ·)).indexOf p : Int) ≥
          (cacheSize : Int) - (((pc.pages ++ [p]).insertionSort (· ≤ ·)).indexOf p : Int) - 1)
      · simp only [hi, if_true]
        exact ((List.take_sublist _ _).trans (List.drop_sublist _ _)).nodup hsortnd
      · simp only [hi, if_false]
        exact (List.take_sublist _ _).nodup hsortnd

/-! ## Theorems for the claims about the resident-page set -/

/-- C1: evaluating `pageCache.add` on the full set `{1,2,3,4,5}` with new
page `0` (sorted order `[0,1,2,3,4,5]`, inserted index `i = 0 < 2`, the
"evict the largest" branch of the claim): the call returns evicted page
`4`, yet `4` remains in the resulting set while the largest page `5` is
the one silently dropped — the returned evicted page is neither the
largest nor removed from the set. -/
theorem C1_add_lower_branch_returns_wrong_eviction :
    pageCache.add ⟨[1, 2, 3, 4, 5]⟩ 0 = (⟨[0, 1, 2, 3, 4]⟩, 4, true) ∧
    (4 : Int) ∈ ((pageCache.add ⟨[1, 2, 3, 4, 5]⟩ 0).1).pages ∧
    (5 : Int) ∉ ((pageCache.add ⟨[1, 2, 3, 4, 5]⟩ 0).1).pages ∧
    ((pageCache.add ⟨[1, 2, 3, 4, 5]⟩ 0).2.1 ≠ 5) := by
  refine ⟨by decide, by decide, by decide, by decide⟩

/-- C4: starting from the empty resident-page set, after any sequence of
`contains`/`add` operations the set holds at most `cacheSize = 5` page
numbers; in particular `add` never leaves more than 5 entries. -/
theorem C4_resident_set_size_le_capacity (ops : List CacheOp) :
    (pageCache.runOps ops).pages.length ≤ cacheSize := by
  suffices h : ∀ (pc : pageCache), pc.pages.length ≤ cacheSize →
      (ops.foldl
        (fun pc op =>
          match op with
          | .containsOp _ => pc
          | .addOp p => (pc.add p).1) pc).pages.length ≤ cacheSize by
    exact h ⟨[]⟩ (by simp [cacheSize])
  induction ops with
  | nil => intro pc h; simpa using h
  | cons op rest ih =>
    intro pc h
    cases op with
    | containsOp q => exact ih pc h
    | addOp q => exact ih _ (pageCache.length_add_le pc q h)

/-- C10: starting from the empty resident-page set, after any sequence of
`contains`/`add` operations the page numbers in the set are pairwise
distinct: `add` checks membership first and otherwise only sorts, inserts
a fresh page and discards elements. -/
theorem C10_resident_set_pages_nodup (ops : List CacheOp) :
    (pageCache.runOps ops).pages.Nodup := by
  suffices h : ∀ (pc : pageCache), pc.pages.Nodup →
      (ops.foldl
        (fun pc op =>
          match op with
          | .containsOp _ => pc
          | .addOp p => (pc.add p).1) pc).pages.Nodup by
    exact h ⟨[]⟩ (by simp)
  induction ops with
  | nil => intro pc h; simpa using h
  | cons op rest ih =>
    intro pc h
    cases op with
    | containsOp q => exact ih pc h
    | addOp q => exact ih _ (pageCache.nodup_add pc q h)

/-! ## Lemmas about the in-flight tracker -/

lemma trackAux_not_active (xs : List inProgress) (req : pageRequest)
    (h : xs.any (fun e => e.p == req.page) = false) :
    trackAux xs req = (xs ++ [⟨req.page, appendNotNil [] req.done⟩], true) := by
  induction xs with
  | nil => rfl
  | cons e rest ih =>
    simp only [List.any_cons, Bool.or_eq_false_iff] at h
    unfold trackAux
    simp only [h.1, Bool.false_eq_true, if_false, ih h.2, List.cons_append]

lemma trackAux_active (xs : List inProgress) (req : pageRequest)
    (h : xs.any (fun e => e.p == req.page) = true) :
    ∃ l1 e l2, xs = l1 ++ e :: l2 ∧ (∀ x ∈ l1, x.p ≠ req.page) ∧
      e.p = req.page ∧
      trackAux xs req =
        (l1 ++ ⟨e.p, appendNotNil e.reply req.done⟩ :: l2, false) := by
  induction xs with
  | nil => simp at h
  | cons e rest ih =>
    by_cases he : (e.p == req.page) = true
    · refine ⟨[], e, rest, by simp, by simp, by simpa using he, ?_⟩
      unfold trackAux
      simp [he]
    · have hrest : rest.any (fun x => x.p == req.page) = true := by
        simpa [he] using h
      obtain ⟨l1, e1, l2, hdec, hl1, hep, htr⟩ := ih hrest
      refine ⟨e :: l1, e1, l2, by rw [hdec]; rfl, ?_, hep, ?_⟩
      · intro x hx
        rcases List.mem_cons.mp hx with hx | hx
        · subst hx
          simpa using he
        · exact hl1 x hx
      · unfold trackAux
        simp [he, htr]

lemma trackAux_pages_active (xs : List inProgress) (req : pageRequest)
    (h : xs.any (fun e => e.p == req.page) = true) :
    (trackAux xs req).1.map (fun e => e.p) = xs.map (fun e => e.p) := by
  obtain ⟨l1, e, l2, hdec, _, _, htr⟩ := trackAux_active xs req h
  rw [htr, hdec]
  simp

lemma loader.track_nodup (l : loader) (req : pageRequest)
    (h : (loaderPages l).Nodup) : (loaderPages (l.track req).1).Nodup := by
  by_cases hb : l.loading.any (fun e => e.p == req.page) = true
  · have hp := trackAux_pages_active l.loading req hb
    unfold loaderPages loader.track
    simpa [hp] using h
  · have hb2 : l.loading.any (fun e => e.p == req.page) = false :=
      Bool.eq_false_iff.mpr hb
    have heq := trackAux_not_active l.loading req hb2
    have hnm : req.page ∉ l.loading.map (fun e => e.p) := by
      intro hm
      obtain ⟨x, hx, hxp⟩ := List.mem_map.mp hm
      have := List.any_eq_false.mp hb2 x hx
      simp [hxp] at this
    unfold loaderPages loader.track
    rw [heq]
    simp only [List.map_append, List.map_cons, List.map_nil]
    rw [← List.concat_eq_append]
    exact h.concat hnm

lemma swapRemove_map_ne {α β : Type} (f : α → β) (xs : List α) (i : Nat)
    (hi : i < xs.length) (hn : (xs.map f).Nodup) (d : α) :
    ∀ y ∈ (xs.set i (xs.getD (xs.length - 1) d)).take (xs.length - 1),
      f y ≠ f (xs.get ⟨i, hi⟩) := by
  intro y hy hcontra
  obtain ⟨j, hj, hyj⟩ := List.getElem_of_mem hy
  have hj2 : j < xs.length - 1 := by
    simp only [List.length_take, List.length_set] at hj
    omega
  have hlast : xs.length - 1 < xs.length := by omega
  have hgd : xs.getD (xs.length - 1) d = xs[xs.length - 1] :=
    List.getD_eq_getElem xs d hlast
  rw [List.getElem_take, List.getElem_set] at hyj
  subst hyj
  rw [List.get_eq_getElem] at hcontra
  have hinj := List.nodup_iff_injective_get.mp hn
  by_cases hij : i = j
  · rw [if_pos hij, hgd] at hcontra
    have hmm : (xs.map f).get ⟨xs.length - 1, by simpa using hlast⟩ =
        (xs.map f).get ⟨i, by simpa using hi⟩ := by
      simp only [List.get_eq_getElem, List.getElem_map]
      exact hcontra
    have h4 := congrArg Fin.val (hinj hmm)
    simp only at h4
    omega
  · rw [if_neg hij] at hcontra
    have hmm : (xs.map f).get ⟨j, by simp only [List.length_map]; omega⟩ =
        (xs.map f).get ⟨i, by simpa using hi⟩ := by
      simp only [List.get_eq_getElem, List.getElem_map]
      exact hcontra
    have h4 := congrArg Fin.val (hinj hmm)
    simp only at h4
    omega

lemma swapRemove_map_nodup {α β : Type} (f : α → β) (xs : List α) (i : Nat)
    (hi : i < xs.length) (hn : (xs.map f).Nodup) (d : α) :
    (((xs.set i (xs.getD (xs.length - 1) d)).take (xs.length - 1)).map f).Nodup := by
  have hlast : xs.length - 1 < xs.length := by omega
  have hgd : xs.getD (xs.length - 1) d = xs[xs.length - 1] :=
    List.getD_eq_getElem xs d hlast
  rw [List.nodup_iff_injective_get]
  rintro ⟨a, ha⟩ ⟨b, hb⟩ hab
  have ha2 : a < xs.length - 1 := by
    simp only [List.length_map, List.length_take, List.length_set] at ha
    omega
  have hb2 : b < xs.length - 1 := by
    simp only [List.length_map, List.length_take, List.length_set] at hb
    omega
  simp only [List.get_eq_getElem, List.getElem_map, List.getElem_take,
    List.getElem_set, hgd] at hab
  have hinj := List.nodup_iff_injective_get.mp hn
  by_cases hia : i = a <;> by_cases hib : i = b
  · refine Fin.ext ?_
    show a = b
    omega
  · rw [if_pos hia, if_neg hib] at hab
    have hmm : (xs.map f).get ⟨xs.length - 1, by simpa using hlast⟩ =
        (xs.map f).get ⟨b, by simp only [List.length_map]; omega⟩ := by
      simp only [List.get_eq_getElem, List.getElem_map]
      exact hab
    have h4 := congrArg Fin.val (hinj hmm)
    simp only at h4
    exact absurd h4 (by omega)
  · rw [if_neg hia, if_pos hib] at hab
    have hmm : (xs.map f).get ⟨a, by simp only [List.length_map]; omega⟩ =
        (xs.map f).get ⟨xs.length - 1, by simpa using hlast⟩ := by
      simp only [List.get_eq_getElem, List.getElem_map]
      exact hab
    have h4 := congrArg Fin.val (hinj hmm)
    simp only at h4
    exact absurd h4 (by omega)
  · rw [if_neg hia, if_neg hib] at hab
    have hmm : (xs.map f).get ⟨a, by simp only [List.length_map]; omega⟩ =
        (xs.map f).get ⟨b, by simp only [List.length_map]; omega⟩ := by
      simp only [List.get_eq_getElem, List.getElem_map]
      exact hab
    have h4 := congrArg Fin.val (hinj hmm)
    simp only at h4
    refine Fin.ext ?_
    show a = b
    exact h4

lemma loader.done_not_active (l : loader) (page : Int)
    (h : l.isActive page = false) : l.done page = (l, []) := by
  have hfi : l.loading.findIdx? (fun e => e.p == page) = none := by
    rw [List.findIdx?_eq_none_iff]
    intro x hx
    have := List.any_eq_false.mp h x hx
    simpa using this
  unfold loader.done
  rw [hfi]

lemma loader.done_nodup (l : loader) (page : Int)
    (h : (loaderPages l).Nodup) : (loaderPages (l.done page).1).Nodup := by
  unfold loader.done
  cases hfi : l.loading.findIdx? (fun e => e.p == page) with
  | none => simpa [loaderPages] using h
  | some i =>
    have hilt : i < l.loading.length :=
      (List.findIdx?_eq_some_iff_findIdx_eq.mp hfi).1
    have := swapRemove_map_nodup (fun e => e.p) l.loading i hilt
      (by simpa [loaderPages] using h) default
    simpa [loaderPages] using this

lemma loader.runOps_nodup (ops : List LoaderOp) :
    (loaderPages (loader.runOps ops)).Nodup := by
  suffices h : ∀ (l : loader), (loaderPages l).Nodup →
      (loaderPages (ops.foldl
        (fun l op =>
          match op with
          | .trackOp req => (l.track req).1
          | .doneOp p => (l.done p).1) l)).Nodup by
    exact h ⟨[]⟩ (by simp [loaderPages])
  induction ops with
  | nil => intro l h; simpa using h
  | cons op rest ih =>
    intro l h
    cases op with
    | trackOp req => exact ih _ (loader.track_nodup l req h)
    | doneOp p => exact ih _ (loader.done_nodup l p h)

/-! ## Theorems for the claims about the tracker, coordinator and facade -/

/-- C3 counterexample: calling `done` on the empty tracker — where no entry
for page 3 exists — returns normally with the tracker unchanged and nobody
notified; it does not abort. -/
theorem C3_done_untracked_returns_normally :
    loader.done ⟨[]⟩ 3 = (⟨[]⟩, []) := rfl

/-- C3 amended: `loader.done` for a page with no in-flight entry is a
silent no-op (normal return, tracker unchanged, no notification); the
defensive fail-fast for this protocol violation sits in the coordinator,
whose page-ready branch panics when `isActive` is false before `done` is
ever invoked. -/
theorem C3_done_noop_and_coordinator_panics (l : loader) (page : Int)
    (st : coordState) :
    (l.isActive page = false → l.done page = (l, [])) ∧
    (st.inflight.isActive page = false → handleReady st page = none) := by
  refine ⟨loader.done_not_active l page, ?_⟩
  intro h
  unfold handleReady
  simp [h]

/-- C3 witness: the amended statement instantiated on the empty tracker
and the empty coordinator state at page 5. -/
theorem C3_amended_witness :
    loader.done ⟨[]⟩ 5 = (⟨[]⟩, []) ∧ handleReady ⟨⟨[]⟩, ⟨[]⟩⟩ 5 = none := by
  have h := C3_done_noop_and_coordinator_panics ⟨[]⟩ 5 ⟨⟨[]⟩, ⟨[]⟩⟩
  exact ⟨h.1 (by decide), h.2 (by decide)⟩

/-- C5: `track` reports a new load exactly when no entry for the request's
page exists, in which case it appends a fresh entry whose waiter list
holds the request's slot if present and is empty otherwise; when an entry
exists it appends the slot (if present) to that entry's waiter list and
reports false; and every tracker state reachable from the empty tracker by
`track`/`done` operations has pairwise-distinct entry pages. -/
theorem C5_track_dedup_invariant (l : loader) (req : pageRequest) :
    ((l.track req).2 = true ↔ l.isActive req.page = false) ∧
    (l.isActive req.page = false →
      (l.track req).1.loading =
        l.loading ++ [⟨req.page, appendNotNil [] req.done⟩]) ∧
    (l.isActive req.page = true →
      ∃ l1 e l2, l.loading = l1 ++ e :: l2 ∧ (∀ x ∈ l1, x.p ≠ req.page) ∧
        e.p = req.page ∧
        (l.track req).1.loading =
          l1 ++ ⟨e.p, appendNotNil e.reply req.done⟩ :: l2) ∧
    (∀ ops : List LoaderOp, (loaderPages (loader.runOps ops)).Nodup) := by
  by_cases hb : l.loading.any (fun e => e.p == req.page) = true
  · obtain ⟨l1, e, l2, hdec, hl1, hep, htr⟩ := trackAux_active l.loading req hb
    have hact : l.isActive req.page = true := hb
    have h2 : (l.track req).2 = false := by
      simp only [loader.track, htr]
    refine ⟨?_, ?_, ?_, loader.runOps_nodup⟩
    · rw [h2, hact]
      simp
    · intro h
      rw [hact] at h
      exact absurd h (by simp)
    · intro _
      refine ⟨l1, e, l2, hdec, hl1, hep, ?_⟩
      simp only [loader.track, htr]
  · have hb2 : l.loading.any (fun e => e.p == req.page) = false :=
      Bool.eq_false_iff.mpr hb
    have heq := trackAux_not_active l.loading req hb2
    have hact : l.isActive req.page = false := hb2
    have h2 : (l.track req).2 = true := by
      simp only [loader.track, heq]
    refine ⟨?_, ?_, ?_, loader.runOps_nodup⟩
    · rw [h2, hact]
      simp
    · intro _
      simp only [loader.track, heq]
    · intro h
      rw [hact] at h
      exact absurd h (by simp)

/-- C5 witness: a tracker holding an entry for page 2 receives a request
for page 2 (existing: `track` reports false), and a tracker holding only
page 3 receives a request for page 4 with slot 9 (new: a fresh entry with
waiter list `[9]` is appended). -/
theorem C5_witness :
    (loader.track ⟨[⟨2, [7]⟩]⟩ ⟨2, some 9⟩).2 = false ∧
    (loader.track ⟨[⟨3, []⟩]⟩ ⟨4, some 9⟩).1.loading = [⟨3, []⟩, ⟨4, [9]⟩] := by
  have h1 := (C5_track_dedup_invariant ⟨[⟨2, [7]⟩]⟩ ⟨2, some 9⟩).1
  have h2 := (C5_track_dedup_invariant ⟨[⟨3, []⟩]⟩ ⟨4, some 9⟩).2.1 (by decide)
  constructor
  · cases hb : (loader.track ⟨[⟨2, [7]⟩]⟩ ⟨2, some 9⟩).2
    · rfl
    · exact absurd (h1.mp hb) (by decide)
  · rw [h2]
    rfl

/-- C7: when the tracker holds an entry `e` for the page (entry pages are
pairwise distinct), `done` sends the page number exactly once to each
waiter channel recorded in that entry, in order, and removes the entry, so
the page is no longer active afterwards. -/
theorem C7_done_notifies_waiters_and_removes (l : loader) (page : Int)
    (e : inProgress) (hn : (loaderPages l).Nodup) (he : e ∈ l.loading)
    (hep : e.p = page) :
    (l.done page).2 = e.reply.map (fun c => (c, page)) ∧
    (l.done page).1.isActive page = false := by
  obtain ⟨i, hfi⟩ : ∃ i, l.loading.findIdx? (fun x => x.p == page) = some i := by
    cases hca : l.loading.findIdx? (fun x => x.p == page) with
    | none =>
      rw [List.findIdx?_eq_none_iff] at hca
      have := hca e he
      simp [hep] at this
    | some i => exact ⟨i, rfl⟩
  obtain ⟨hilt, hfidx⟩ := List.findIdx?_eq_some_iff_findIdx_eq.mp hfi
  have hpi : (l.loading.get ⟨i, hilt⟩).p = page := by
    have h3 := ((List.findIdx_eq hilt).mp hfidx).1
    rw [List.get_eq_getElem]
    simpa using h3
  have huniq := List.inj_on_of_nodup_map (by simpa [loaderPages] using hn)
  have hei : l.loading.get ⟨i, hilt⟩ = e :=
    huniq (List.get_mem l.loading i hilt) he (by rw [hpi, hep])
  have hei2 : l.loading[i] = e := hei
  have hgdi : l.loading.getD i default = e := by
    rw [List.getD_eq_getElem _ _ hilt]
    exact hei2
  constructor
  · simp only [loader.done, hfi]
    rw [hgdi]
  · simp only [loader.done, hfi, loader.isActive]
    rw [List.any_eq_false]
    intro y hy
    have hne := swapRemove_map_ne (fun x => x.p) l.loading i hilt
      (by simpa [loaderPages] using hn) default y hy
    have hne2 : y.p ≠ page := by
      simpa [hei2, hep] using hne
    simp [hne2]

/-- C7 witness: a tracker with entries for pages 1, 2, 3 where page 2 has
waiters 5 and 6: `done 2` sends 2 to both waiters and deactivates page 2. -/
theorem C7_witness :
    (loader.done ⟨[⟨1, [4]⟩, ⟨2, [5, 6]⟩, ⟨3, []⟩]⟩ 2).2 = [(5, 2), (6, 2)] ∧
    (loader.done ⟨[⟨1, [4]⟩, ⟨2, [5, 6]⟩, ⟨3, []⟩]⟩ 2).1.isActive 2 = false := by
  have h := C7_done_notifies_waiters_and_removes
    ⟨[⟨1, [4]⟩, ⟨2, [5, 6]⟩, ⟨3, []⟩]⟩ 2 ⟨2, [5, 6]⟩
    (by decide) (by decide) (by decide)
  exact ⟨by simpa using h.1, h.2⟩

/-- C6: a request for a page already in the resident set leaves the
coordinator state (resident set and tracker) unchanged, spawns no load
worker, and sends the page number on the request's slot exactly when one
is present. -/
theorem C6_resident_request_notifies_without_load (st : coordState)
    (req : pageRequest) (h : st.cache.contains req.page = true) :
    (handleRequest st req).state = st ∧
    (handleRequest st req).spawned = none ∧
    (∀ c, req.done = some c → (handleRequest st req).sends = [(c, req.page)]) ∧
    (req.done = none → (handleRequest st req).sends = []) := by
  have hr : handleRequest st req =
      ⟨st,
       match req.done with
       | some c => [(c, req.page)]
       | none => [],
       none⟩ := by
    unfold handleRequest
    rw [if_pos h]
  refine ⟨by rw [hr], by rw [hr], ?_, ?_⟩
  · intro c hc
    rw [hr, hc]
  · intro hc
    rw [hr, hc]

/-- C6 witness: resident set `{7}`, request for page 7 with slot 3: the
state is unchanged, nothing is spawned and the slot is notified with 7. -/
theorem C6_witness :
    (handleRequest ⟨⟨[7]⟩, ⟨[]⟩⟩ ⟨7, some 3⟩).state = ⟨⟨[7]⟩, ⟨[]⟩⟩ ∧
    (handleRequest ⟨⟨[7]⟩, ⟨[]⟩⟩ ⟨7, some 3⟩).spawned = none ∧
    (handleRequest ⟨⟨[7]⟩, ⟨[]⟩⟩ ⟨7, some 3⟩).sends = [(3, 7)] := by
  have h := C6_resident_request_notifies_without_load ⟨⟨[7]⟩, ⟨[]⟩⟩ ⟨7, some 3⟩
    (by decide)
  exact ⟨h.1, h.2.1, h.2.2.1 3 rfl⟩

/-- C2: evaluated on a backing list of 4 items with page size 2 at index
-1: the guard only checks `pos >= len(items)`, so the call computes page
`(-1)/2 = 0` (Go division truncates toward zero), sends a prefetch
request for page 1 and a blocking request for page 0 — side effects — and
then panics indexing `items[-1]`, instead of returning "not found" with no
side effects. At index 4 (≥ N) the claimed behavior does hold. -/
theorem C2_At_negative_index_side_effects_and_panic :
    CachedSlicePaged.At
        (⟨"", [(), (), (), ()], 2, true⟩ : CachedSlicePaged Unit) (-1) =
      ⟨[1], some 0, none⟩ ∧
    CachedSlicePaged.At
        (⟨"", [(), (), (), ()], 2, true⟩ : CachedSlicePaged Unit) 4 =
      ⟨[], none, some (none, false)⟩ := by
  exact ⟨by decide, by decide⟩

/-- C8: `Free` closes the request channel (given it is still open), a
receive on the closed channel terminates the prefetcher loop, and `Free`
issues exactly one `Unload` per item index of the backing collection —
independently of the resident set, which it never consults. -/
theorem C8_free_stops_loop_and_unloads_all (c : CachedSlicePaged E)
    (st : coordState) (h : c.fetchOpen = true) :
    (c.Free).2.1 = true ∧
    fetchLoopRecv st none = none ∧
    (∀ i : Nat, i < c.items.length → (c.Free).2.2.count i = 1) ∧
    (∀ i : Nat, c.items.length ≤ i → (c.Free).2.2.count i = 0) := by
  refine ⟨h, rfl, ?_, ?_⟩
  · intro i hi
    show (List.range c.items.length).count i = 1
    exact List.count_eq_one_of_mem (List.nodup_range _) (List.mem_range.mpr hi)
  · intro i hi
    show (List.range c.items.length).count i = 0
    rw [List.count_eq_zero]
    intro hm
    rw [List.mem_range] at hm
    omega

/-- C8 witness: a two-item cache with an open channel: `Free` reports the
close, item indices 0 and 1 each get one `Unload`, index 5 gets none. -/
theorem C8_witness :
    ((⟨"", [(), ()], 1, true⟩ : CachedSlicePaged Unit).Free).2.1 = true ∧
    ((⟨"", [(), ()], 1, true⟩ : CachedSlicePaged Unit).Free).2.2.count 0 = 1 ∧
    ((⟨"", [(), ()], 1, true⟩ : CachedSlicePaged Unit).Free).2.2.count 1 = 1 ∧
    ((⟨"", [(), ()], 1, true⟩ : CachedSlicePaged Unit).Free).2.2.count 5 = 0 := by
  have h := C8_free_stops_loop_and_unloads_all
    (⟨"", [(), ()], 1, true⟩ : CachedSlicePaged Unit) ⟨⟨[]⟩, ⟨[]⟩⟩ rfl
  exact ⟨h.1, h.2.2.1 0 (by decide), h.2.2.1 1 (by decide), h.2.2.2 5 (by decide)⟩

/-- C9: the sequence `Get` produces arises from calling `At` on the
consecutive indices starting at `frm`: no item and no `At` call when
`frm ≥ upTo`; otherwise `At frm` is called, a not-found ends the sequence,
a found item is yielded and iteration continues at `frm + 1` exactly while
the consumer keeps consuming. -/
theorem C9_get_visits_consecutive_indices (atf : Int → Option E)
    (yield : E → Bool) (frm upTo : Int) :
    (upTo ≤ frm → GetRun atf yield frm upTo = ([], [])) ∧
    (frm < upTo → atf frm = none → GetRun atf yield frm upTo = ([], [frm])) ∧
    (frm < upTo → ∀ e, atf frm = some e → yield e = true →
      GetRun atf yield frm upTo =
        (e :: (GetRun atf yield (frm + 1) upTo).1,
         frm :: (GetRun atf yield (frm + 1) upTo).2)) ∧
    (frm < upTo → ∀ e, atf frm = some e → yield e = false →
      GetRun atf yield frm upTo = ([e], [frm])) := by
  refine ⟨?_, ?_, ?_, ?_⟩
  · intro h
    have h0 : (upTo - frm).toNat = 0 := by omega
    unfold GetRun
    rw [h0]
    rfl
  · intro h hat
    have hf : (upTo - frm).toNat = (upTo - (frm + 1)).toNat + 1 := by omega
    unfold GetRun
    rw [hf]
    simp [GetRunAux, hat]
  · intro h e hat hy
    have hf : (upTo - frm).toNat = (upTo - (frm + 1)).toNat + 1 := by omega
    unfold GetRun
    rw [hf]
    simp [GetRunAux, hat, hy]
  · intro h e hat hy
    have hf : (upTo - frm).toNat = (upTo - (frm + 1)).toNat + 1 := by omega
    unfold GetRun
    rw [hf]
    simp [GetRunAux, hat, hy]

/-- C9 witness: `At` finds index 0 only; iterating `[0, 2)` yields the item
at 0 then stops at the not-found index 1; iterating the empty range `[2, 2)`
yields nothing and calls `At` nowhere. -/
theorem C9_witness :
    GetRun (fun i : Int => if i = 0 then some (10 : Nat) else none)
      (fun _ => true) 0 2 = ([10], [0, 1]) ∧
    GetRun (fun i : Int => if i = 0 then some (10 : Nat) else none)
      (fun _ => true) 2 2 = ([], []) := by
  have h1 := C9_get_visits_consecutive_indices
    (fun i : Int => if i = 0 then some (10 : Nat) else none) (fun _ => true) 0 2
  have h2 := C9_get_visits_consecutive_indices
    (fun i : Int => if i = 0 then some (10 : Nat) else none) (fun _ => true) 1 2
  have h3 := C9_get_visits_consecutive_indices
    (fun i : Int => if i = 0 then some (10 : Nat) else none) (fun _ => true) 2 2
  have e1 := h1.2.2.1 (by decide) 10 (by decide) rfl
  have e2 := h2.2.1 (by decide) (by decide)
  refine ⟨?_, h3.1 (by decide)⟩
  have h01 : (0 : Int) + 1 = 1 := by norm_num
  rw [e1, h01, e2]
